import Mathlib

/-!
Shallow embedding of the batch orchestration engine of
`src/quantus/metrics/base_batched.py` (class `BatchedMetric`), together with
proofs of the specification's claims about it.

The embedding models:
* dataset values (`Val`): scalars, character strings and one-dimensional
  arrays (covering both `Sequence` and `np.ndarray` values of the source);
* `BatchedMetric.get_number_of_batches` (`get_number_of_batches`);
* the argument-partitioning loop of `BatchedMetric.generate_batches`
  (`partitionArgs`) and the batch-slicing loop (`generate_batches`);
* the constructor's evaluator-kwarg resolution (`init_custom_kwargs`,
  with `strip_batch` embedding `re.sub('_batch', '', key)`);
* `BatchedMetric.__call__` (`metric_call`), as a state transformer over
  `MetricState` (`custom_evaluate_kwargs`, `last_results`, `all_results`),
  with Python exceptions modelled by `Except Exc`.
-/

deriving instance DecidableEq for Except

namespace Quantus

/-- A dataset value: a non-sequence scalar, a character string, or a
one-dimensional array (modelling both `Sequence` and `np.ndarray`). -/
inductive Val where
  | scalar : Int → Val
  | str : String → Val
  | arr : List Int → Val
deriving DecidableEq

/-- Embeds Python's `isinstance(value, (Sequence, np.ndarray))`.
Note that a Python `str` is itself a `Sequence`. -/
def Val.isPySequence : Val → Bool
  | .scalar _ => false
  | .str _ => true
  | .arr _ => true

/-- Embeds Python's `isinstance(value, str)`. -/
def Val.isStr : Val → Bool
  | .str _ => true
  | _ => false

/-- Embeds Python's `len(value)` on the values for which the source calls it. -/
def Val.len : Val → Nat
  | .scalar _ => 0
  | .str s => s.length
  | .arr l => l.length

/-- Embeds the slicing `value[batch_start:batch_end]` applied to batched
values (which are always arrays by the time they are sliced). -/
def Val.pySlice : Val → Nat → Nat → Val
  | .arr l, s, e => .arr ((l.drop s).take (e - s))
  | v, _, _ => v

/-- A Python keyword-argument mapping (`Dict[str, Any]`), in insertion order. -/
abbrev Args := List (String × Val)

/-- Python exceptions relevant to the engine: `KeyError` (missing dict key),
the partitioner's `ValueError` (offending key, expected length, actual
length), and opaque exceptions raised by hooks or the evaluator. -/
inductive Exc where
  | keyError : String → Exc
  | valueError : String → Nat → Nat → Exc
  | hookError : String → Exc
deriving DecidableEq

/-- Removes every (leftmost, non-overlapping) occurrence of the character
sequence `_batch`, the behaviour of `re.sub('_batch', '', key)` on a
pattern without metacharacters. -/
def removeBatchSub : List Char → List Char
  | '_' :: 'b' :: 'a' :: 't' :: 'c' :: 'h' :: rest => removeBatchSub rest
  | c :: cs => c :: removeBatchSub cs
  | [] => []

/-- Embeds `re.sub('_batch', '', key)` from `BatchedMetric.__init__`. -/
def strip_batch (s : String) : String :=
  ⟨removeBatchSub s.data⟩

/-- Embeds the kwarg-resolution loop of `BatchedMetric.__init__`
(lines 70-76): each `(key, value)` of `kwargs` moves to
`custom_evaluate_kwargs` when `key` is in `evaluate_kwarg_names` or
`re.sub('_batch', '', key)` is; otherwise it stays in the kwargs passed on
to `super().__init__`.  Returns `(custom_evaluate_kwargs, remaining_kwargs)`. -/
def init_custom_kwargs (evaluate_kwarg_names : List String) : Args → Args × Args
  | [] => ([], [])
  | (k, v) :: rest =>
    let p := init_custom_kwargs evaluate_kwarg_names rest
    if evaluate_kwarg_names.contains k || evaluate_kwarg_names.contains (strip_batch k) then
      ((k, v) :: p.1, p.2)
    else
      (p.1, (k, v) :: p.2)

/-- Embeds `BatchedMetric.get_number_of_batches`:
`math.ceil(n_instances / batch_size)`, the exact ceiling of the quotient. -/
def get_number_of_batches (n_instances batch_size : Nat) : Nat :=
  (n_instances + batch_size - 1) / batch_size

/-- Embeds line 260 of `generate_batches`: `batch_start = batch_size * batch_idx`. -/
def batch_start (batch_size batch_idx : Nat) : Nat :=
  batch_size * batch_idx

/-- Embeds line 261 of `generate_batches`:
`batch_end = min(batch_size * (batch_idx + 1), n_instances)`. -/
def batch_end (batch_size batch_idx n_instances : Nat) : Nat :=
  min (batch_size * (batch_idx + 1)) n_instances

/-- Embeds the classification loop of `BatchedMetric.generate_batches`
(lines 233-249): in insertion order, an entry that is not a
`Sequence`/`np.ndarray`, or is a `str`, goes to `single_value_kwargs`; a
remaining (sequence) entry of length other than `n` raises
`ValueError(key, n, len(value))`; otherwise it goes to
`batched_value_kwargs`.  Returns `(single_value_kwargs, batched_value_kwargs)`. -/
def partitionArgs (n : Nat) : Args → Except Exc (Args × Args)
  | [] => .ok ([], [])
  | (k, v) :: rest =>
    if !v.isPySequence || v.isStr then
      match partitionArgs n rest with
      | .error e => .error e
      | .ok (s, b) => .ok ((k, v) :: s, b)
    else if v.len ≠ n then
      .error (.valueError k n v.len)
    else
      match partitionArgs n rest with
      | .error e => .error e
      | .ok (s, b) => .ok (s, (k, v) :: b)

/-- The merged mapping yielded for one batch:
`{key: value[batch_start:batch_end] ...} ∪ single_value_kwargs`. -/
def make_batch (batched single : Args) (batch_start batch_end : Nat) : Args :=
  batched.map (fun kv => (kv.1, kv.2.pySlice batch_start batch_end)) ++ single

/-- Embeds `BatchedMetric.generate_batches` (lines 225-265) as the list of
all yielded batches: `n_instances = len(data['x_batch'])`, partition the
entries, then for each `batch_idx < get_number_of_batches` slice every
batched entry to `[batch_size * batch_idx, min(batch_size * (batch_idx+1),
n_instances))` and merge with the single-value entries. -/
def generate_batches (data : Args) (batch_size : Nat) : Except Exc (List Args) :=
  match List.lookup "x_batch" data with
  | none => .error (.keyError "x_batch")
  | some xv =>
    let n := xv.len
    match partitionArgs n data with
    | .error e => .error e
    | .ok (single, batched) =>
      .ok ((List.range (get_number_of_batches n batch_size)).map
        (fun batch_idx =>
          make_batch batched single (batch_start batch_size batch_idx)
            (batch_end batch_size batch_idx n)))

/-- The mutable state of a `BatchedMetric` instance that `__call__` touches:
the constructor-resolved evaluator kwargs, the most recent result list
(`self.last_results`) and the cumulative history (`self.all_results`). -/
structure MetricState where
  custom_evaluate_kwargs : Args
  last_results : List Int
  all_results : List (List Int)
deriving DecidableEq

/-- Embeds the evaluation loop of `BatchedMetric.__call__` (lines 199-202):
for each batch, call `self.evaluate_batch(**data_batch,
**self.custom_evaluate_kwargs)` and extend the accumulated results; an
exception aborts the loop, leaving the results accumulated so far. -/
def call_loop (ev : Args → Except Exc (List Int)) (custom : Args) :
    List Args → List Int → List Int × Option Exc
  | [], acc => (acc, none)
  | b :: rest, acc =>
    match ev (b ++ custom) with
    | .error e => (acc, some e)
    | .ok r => call_loop ev custom rest (acc ++ r)

/-- Embeds `BatchedMetric.__call__` (lines 95-208) as a state transformer.
`pre` is the (opaque) outcome of `general_preprocess`; on success the
batch generator is built over its data, `self.last_results` is reset to
`[]`, the loop runs (the partitioner executes inside the generator's first
step, i.e. after the reset), `custom_postprocess` runs on the full data,
and only then is the result appended to `self.all_results` and returned.
Any exception propagates, leaving `self.all_results` unchanged. -/
def metric_call (pre : Except Exc Args) (ev : Args → Except Exc (List Int))
    (post : Args → Except Exc Unit) (batch_size : Nat) (st : MetricState) :
    MetricState × Except Exc (List Int) :=
  match pre with
  | .error e => (st, .error e)
  | .ok data =>
    let st1 : MetricState := { st with last_results := [] }
    match generate_batches data batch_size with
    | .error e => (st1, .error e)
    | .ok batches =>
      match call_loop ev st1.custom_evaluate_kwargs batches [] with
      | (acc, some e) => ({ st1 with last_results := acc }, .error e)
      | (acc, none) =>
        match post data with
        | .error e => ({ st1 with last_results := acc }, .error e)
        | .ok _ =>
          ({ st1 with last_results := acc, all_results := st1.all_results ++ [acc] },
           .ok acc)

/-- Spec-side definition (claim C6's wording): strip the literal suffix
`_batch` from a name, leaving the name unchanged when it does not end in
that suffix.  To be compared with `strip_batch`, the code's behaviour. -/
def strip_batch_suffix (s : String) : String :=
  if ['_', 'b', 'a', 't', 'c', 'h'].isSuffixOf s.data then
    ⟨s.data.take (s.data.length - 6)⟩
  else s

/-- Spec-side loop shape: apply a per-batch function to each batch in order,
accumulating results, stopping at the first failure.  Used to state that
`call_loop` invokes the evaluator on exactly `b ++ custom` for each batch. -/
def call_on_batches (f : Args → Except Exc (List Int)) :
    List Args → List Int → List Int × Option Exc
  | [], acc => (acc, none)
  | b :: rest, acc =>
    match f b with
    | .error e => (acc, some e)
    | .ok r => call_on_batches f rest (acc ++ r)

/-- The `x_batch` slice carried by a yielded batch (as a list; `[]` when the
batch has no array under the key `x_batch`). -/
def xSlice (b : Args) : List Int :=
  match List.lookup "x_batch" b with
  | some (.arr l) => l
  | _ => []

/-! ### Arithmetic helper lemmas about the Batch Planner -/

theorem le_mul_batches {n bs : Nat} (hbs : 0 < bs) :
    n ≤ bs * get_number_of_batches n bs := by
  unfold get_number_of_batches
  rcases Nat.eq_zero_or_pos n with hn | hn
  · subst hn; exact Nat.zero_le _
  · have h1 : n + bs - 1 = (n - 1) + bs := by omega
    rw [h1, Nat.add_div_right _ hbs, Nat.mul_succ]
    have h2 : bs * ((n - 1) / bs) + (n - 1) % bs = n - 1 := Nat.div_add_mod (n - 1) bs
    have h3 : (n - 1) % bs < bs := Nat.mod_lt _ hbs
    omega

theorem mul_batches_lt {n bs : Nat} (hbs : 0 < bs) :
    bs * get_number_of_batches n bs < n + bs := by
  unfold get_number_of_batches
  have h := Nat.div_mul_le_self (n + bs - 1) bs
  have h2 : bs * ((n + bs - 1) / bs) = (n + bs - 1) / bs * bs := Nat.mul_comm _ _
  omega

theorem batch_start_le_of_lt {n bs i : Nat} (hbs : 0 < bs)
    (hi : i < get_number_of_batches n bs) : bs * i < n := by
  have h1 : i + 1 ≤ get_number_of_batches n bs := hi
  have h2 : bs * (i + 1) ≤ bs * get_number_of_batches n bs := Nat.mul_le_mul_left bs h1
  have h3 := mul_batches_lt (n := n) hbs
  have h4 : bs * (i + 1) = bs * i + bs := Nat.mul_succ bs i
  omega

/-- Telescoping sum of the clamped range lengths. -/
theorem sum_range_min_sub (bs n q : Nat) :
    ((List.range q).map (fun i => min (bs * (i + 1)) n - min (bs * i) n)).sum
      = min (bs * q) n - min (bs * 0) n := by
  induction q with
  | zero => simp
  | succ m ih =>
    rw [List.range_succ, List.map_append, List.sum_append]
    simp only [List.map_cons, List.map_nil, List.sum_cons, List.sum_nil, ih]
    have h1 : min (bs * 0) n ≤ min (bs * m) n :=
      min_le_min (Nat.mul_le_mul_left bs (Nat.zero_le m)) (le_refl n)
    have h2 : min (bs * m) n ≤ min (bs * (m + 1)) n :=
      min_le_min (Nat.mul_le_mul_left bs (Nat.le_succ m)) (le_refl n)
    omega

/-! ### List helper lemmas (chunked slicing and association-list lookup) -/

/-- The slice `[batch_start, batch_end)` of a list of full length always
takes `bs` elements (or whatever remains). -/
theorem slice_take_eq {bs i : Nat} (l : List Int) :
    (l.drop (bs * i)).take (batch_end bs i l.length - batch_start bs i)
      = (l.drop (bs * i)).take bs := by
  unfold batch_start batch_end
  rcases le_or_lt (bs * (i + 1)) l.length with h | h
  · rw [min_eq_left h]
    congr 1
    rw [Nat.mul_succ]
    omega
  · rw [min_eq_right (le_of_lt h)]
    have hlen : (l.drop (bs * i)).length = l.length - bs * i := List.length_drop _ _
    have hm : bs * (i + 1) = bs * i + bs := Nat.mul_succ bs i
    rw [List.take_of_length_le (by omega), List.take_of_length_le (by omega)]

/-- Concatenating consecutive `bs`-sized chunks of a list rebuilds the list. -/
theorem flatten_chunks {bs : Nat} :
    ∀ (m : Nat) (l : List Int), l.length ≤ bs * m →
      ((List.range m).map (fun i => (l.drop (bs * i)).take bs)).flatten = l := by
  intro m
  induction m with
  | zero =>
    intro l hl
    simp only [Nat.mul_zero, Nat.le_zero, List.length_eq_zero] at hl
    subst hl
    simp
  | succ m ih =>
    intro l hl
    rw [List.range_succ_eq_map, List.map_cons, List.map_map, List.flatten_cons]
    have hstep : ∀ i : Nat,
        ((l.drop bs).drop (bs * i)).take bs = (l.drop (bs * (i + 1))).take bs := by
      intro i
      rw [List.drop_drop, Nat.mul_succ, Nat.add_comm]
    have hmap :
        (List.range m).map ((fun i => (l.drop (bs * i)).take bs) ∘ Nat.succ)
          = (List.range m).map (fun i => ((l.drop bs).drop (bs * i)).take bs) := by
      apply List.map_congr_left
      intro i _
      simp only [Function.comp]
      rw [hstep i]
    rw [hmap, ih (l.drop bs) (by rw [List.length_drop]; rw [Nat.mul_succ] at hl; omega)]
    simp only [Nat.mul_zero, List.drop_zero]
    exact List.take_append_drop bs l

theorem lookup_eq_some_of_mem_nodup {k : String} {v : Val} {l : Args}
    (hnd : (l.map Prod.fst).Nodup) (hmem : (k, v) ∈ l) :
    List.lookup k l = some v := by
  induction l with
  | nil => cases hmem
  | cons hd tl ih =>
    rcases List.mem_cons.mp hmem with hmem | hmem
    · subst hmem
      simp [List.lookup]
    · simp only [List.map_cons, List.nodup_cons] at hnd
      have hk : k ≠ hd.1 := by
        intro hkk
        exact hnd.1 (hkk ▸ (List.mem_map.mpr ⟨(k, v), hmem, rfl⟩))
      have : (k == hd.1) = false := beq_eq_false_iff_ne.mpr hk
      rw [show hd = (hd.1, hd.2) from rfl]
      simp only [List.lookup, this]
      exact ih hnd.2 hmem

theorem mem_of_lookup_eq_some {k : String} {v : Val} {l : Args}
    (h : List.lookup k l = some v) : (k, v) ∈ l := by
  induction l with
  | nil => simp [List.lookup] at h
  | cons hd tl ih =>
    rw [show hd = (hd.1, hd.2) from rfl] at h ⊢
    simp only [List.lookup] at h
    by_cases hk : k == hd.1
    · rw [hk] at h
      simp only [cond_true, Option.some.injEq] at h
      rw [eq_of_beq hk, ← h]
      exact List.mem_cons_self _ _
    · rw [Bool.of_not_eq_true hk] at h
      simp only [cond_false] at h
      exact List.mem_cons_of_mem _ (ih h)

theorem lookup_map_value {k : String} {l : Args} (f : Val → Val) :
    List.lookup k (l.map (fun kv => (kv.1, f kv.2))) = (List.lookup k l).map f := by
  induction l with
  | nil => simp [List.lookup]
  | cons hd tl ih =>
    simp only [List.map_cons, List.lookup]
    by_cases hk : k == hd.1
    · simp [hk]
    · rw [Bool.of_not_eq_true hk]
      simpa using ih

theorem lookup_append_left {k : String} {v : Val} {l1 l2 : Args}
    (h : List.lookup k l1 = some v) : List.lookup k (l1 ++ l2) = some v := by
  induction l1 with
  | nil => simp [List.lookup] at h
  | cons hd tl ih =>
    simp only [List.cons_append, List.lookup] at h ⊢
    by_cases hk : k == hd.1
    · rw [show hd = (hd.1, hd.2) from rfl] at h ⊢
      simp only [List.lookup, hk, cond_true] at h ⊢
      exact h
    · rw [show hd = (hd.1, hd.2) from rfl] at h ⊢
      simp only [List.lookup, Bool.of_not_eq_true hk, cond_false] at h ⊢
      exact ih h

/-! ### Behaviour of the Argument Partitioner -/

/-- On success, `partitionArgs` splits the entries exactly along the
source's classification test, and every batched entry has length `n`. -/
theorem partitionArgs_ok_spec {n : Nat} {data s b : Args}
    (h : partitionArgs n data = .ok (s, b)) :
    s = data.filter (fun kv => !kv.2.isPySequence || kv.2.isStr)
    ∧ b = data.filter (fun kv => kv.2.isPySequence && !kv.2.isStr)
    ∧ ∀ kv ∈ data, (kv.2.isPySequence && !kv.2.isStr) = true → kv.2.len = n := by
  induction data generalizing s b with
  | nil =>
    simp only [partitionArgs, Except.ok.injEq, Prod.mk.injEq] at h
    exact ⟨h.1.symm, h.2.symm, fun kv hkv _ => absurd hkv (List.not_mem_nil kv)⟩
  | cons hd tl ih =>
    rw [show hd = (hd.1, hd.2) from rfl] at h
    simp only [partitionArgs] at h
    by_cases hc : (!hd.2.isPySequence || hd.2.isStr) = true
    · rw [if_pos hc] at h
      cases htl : partitionArgs n tl with
      | error e => rw [htl] at h; cases h
      | ok p =>
        rw [htl] at h
        obtain ⟨s', b'⟩ := p
        simp only [Except.ok.injEq, Prod.mk.injEq] at h
        obtain ⟨hs, hb⟩ := h
        obtain ⟨ihs, ihb, ihlen⟩ := ih htl
        have hc2 : (hd.2.isPySequence && !hd.2.isStr) = false := by
          cases hps : hd.2.isPySequence <;> cases hst : hd.2.isStr <;> simp_all
        refine ⟨?_, ?_, ?_⟩
        · rw [List.filter_cons, if_pos hc, ← hs, ihs]
        · rw [List.filter_cons, hc2, ← hb, ihb]
          simp
        · intro kv hkv hseq
          rcases List.mem_cons.mp hkv with hkv | hkv
          · rw [hkv] at hseq; rw [hseq] at hc2; cases hc2
          · exact ihlen kv hkv hseq
    · have hc' : (!hd.2.isPySequence || hd.2.isStr) = false := Bool.of_not_eq_true hc
      have hseqt : hd.2.isPySequence = true := by
        cases hps : hd.2.isPySequence <;> simp_all
      have h2 : hd.2.isStr = false := by
        cases hst : hd.2.isStr <;> simp_all
      have hc2 : (hd.2.isPySequence && !hd.2.isStr) = true := by simp [hseqt, h2]
      rw [if_neg hc] at h
      by_cases hlen : hd.2.len ≠ n
      · rw [if_pos hlen] at h; cases h
      · rw [if_neg hlen] at h
        cases htl : partitionArgs n tl with
        | error e => rw [htl] at h; cases h
        | ok p =>
          rw [htl] at h
          obtain ⟨s', b'⟩ := p
          simp only [Except.ok.injEq, Prod.mk.injEq] at h
          obtain ⟨hs, hb⟩ := h
          obtain ⟨ihs, ihb, ihlen⟩ := ih htl
          refine ⟨?_, ?_, ?_⟩
          · rw [List.filter_cons, if_neg (by rw [hc']; simp), ← hs, ihs]
          · rw [List.filter_cons, if_pos hc2, ← hb, ihb]
          · intro kv hkv hseq
            rcases List.mem_cons.mp hkv with hkv | hkv
            · rw [hkv]; exact not_ne_iff.mp hlen
            · exact ihlen kv hkv hseq

/-- If some entry is a non-string sequence with a length other than `n`, the
partitioner raises a `ValueError` naming an offending key together with the
expected length `n` and that entry's actual length. -/
theorem partitionArgs_error_of_bad {n : Nat} {data : Args} {k : String} {v : Val}
    (hmem : (k, v) ∈ data) (hseq : v.isPySequence = true) (hstr : v.isStr = false)
    (hlen : v.len ≠ n) :
    ∃ k2 v2, (k2, v2) ∈ data ∧ v2.isPySequence = true ∧ v2.isStr = false
      ∧ v2.len ≠ n ∧ partitionArgs n data = .error (.valueError k2 n v2.len) := by
  induction data with
  | nil => cases hmem
  | cons hd tl ih =>
    rw [show hd = (hd.1, hd.2) from rfl]
    simp only [partitionArgs]
    by_cases hc : (!hd.2.isPySequence || hd.2.isStr) = true
    · have hmem' : (k, v) ∈ tl := by
        rcases List.mem_cons.mp hmem with hmem | hmem
        · exfalso
          have hv : v = hd.2 := congrArg Prod.snd hmem
          rw [hv] at hseq hstr
          cases hps : hd.2.isPySequence <;> cases hst : hd.2.isStr <;> simp_all
        · exact hmem
      obtain ⟨k2, v2, hm2, hs2, hst2, hl2, heq2⟩ := ih hmem'
      refine ⟨k2, v2, List.mem_cons_of_mem _ hm2, hs2, hst2, hl2, ?_⟩
      rw [if_pos hc, heq2]
    · rw [if_neg hc]
      by_cases hl1 : hd.2.len ≠ n
      · exact ⟨hd.1, hd.2, List.mem_cons_self _ _,
          (by cases hps : hd.2.isPySequence <;> simp_all),
          (by cases hst : hd.2.isStr <;> simp_all),
          hl1, by rw [if_pos hl1]⟩
      · have hmem' : (k, v) ∈ tl := by
          rcases List.mem_cons.mp hmem with hmem | hmem
          · exfalso
            have hv : v = hd.2 := congrArg Prod.snd hmem
            rw [hv] at hlen
            exact hlen (not_ne_iff.mp hl1)
          · exact hmem
        obtain ⟨k2, v2, hm2, hs2, hst2, hl2, heq2⟩ := ih hmem'
        refine ⟨k2, v2, List.mem_cons_of_mem _ hm2, hs2, hst2, hl2, ?_⟩
        rw [if_neg hl1, heq2]

/-! ### Behaviour of the evaluation loop -/

/-- The loop invokes the evaluator on exactly `batch ++ custom` for each
yielded batch, in order. -/
theorem call_loop_eq_call_on_batches (ev : Args → Except Exc (List Int))
    (custom : Args) (batches : List Args) (acc : List Int) :
    call_loop ev custom batches acc
      = call_on_batches (fun b => ev (b ++ custom)) batches acc := by
  induction batches generalizing acc with
  | nil => rfl
  | cons b rest ih =>
    simp only [call_loop, call_on_batches]
    cases ev (b ++ custom) with
    | error e => rfl
    | ok r => exact ih (acc ++ r)

/-- When the evaluator succeeds on every batch, the loop returns the
accumulator extended by the concatenation of all outputs, in batch order. -/
theorem call_loop_ok {ev : Args → Except Exc (List Int)} {custom : Args}
    {batches : List Args} {outs : Args → List Int}
    (hev : ∀ b ∈ batches, ev (b ++ custom) = .ok (outs b)) :
    ∀ acc, call_loop ev custom batches acc
      = (acc ++ (batches.map outs).flatten, none) := by
  induction batches with
  | nil => intro acc; simp [call_loop]
  | cons b rest ih =>
    intro acc
    simp only [call_loop, hev b (List.mem_cons_self _ _)]
    rw [ih (fun b2 hb2 => hev b2 (List.mem_cons_of_mem _ hb2)) (acc ++ outs b)]
    simp [List.append_assoc]

/-- When the evaluator succeeds on the first `j` batches and fails on the
`j`-th one, the loop stops there with the outputs accumulated so far. -/
theorem call_loop_fail {ev : Args → Except Exc (List Int)} {custom : Args}
    {e : Exc} (j : Nat) (outs : Nat → List Int) (batches : List Args)
    (hj : j < batches.length)
    (hsucc : ∀ i (h : i < j), ev (batches.get ⟨i, Nat.lt_trans h hj⟩ ++ custom) = .ok (outs i))
    (hfail : ev (batches.get ⟨j, hj⟩ ++ custom) = .error e) (acc : List Int) :
    call_loop ev custom batches acc
      = (acc ++ ((List.range j).map outs).flatten, some e) := by
  induction j generalizing outs batches acc with
  | zero =>
    cases batches with
    | nil => cases hj
    | cons b rest =>
      simp only [List.get] at hfail
      simp [call_loop, hfail]
  | succ j ih =>
    cases batches with
    | nil => cases hj
    | cons b rest =>
      have h0 := hsucc 0 (Nat.succ_pos j)
      simp only [List.get] at h0
      simp only [call_loop, h0]
      have hj' : j < rest.length := Nat.lt_of_succ_lt_succ hj
      have hsucc' : ∀ i (h : i < j),
          ev (rest.get ⟨i, Nat.lt_trans h hj'⟩ ++ custom) = .ok ((fun i2 => outs (i2 + 1)) i) := by
        intro i h
        have := hsucc (i + 1) (Nat.succ_lt_succ h)
        simpa [List.get] using this
      have hfail' : ev (rest.get ⟨j, hj'⟩ ++ custom) = .error e := by
        simpa [List.get] using hfail
      rw [ih (fun i2 => outs (i2 + 1)) rest hj' hsucc' hfail' (acc ++ outs 0)]
      rw [List.range_succ_eq_map, List.map_cons, List.map_map, List.flatten_cons]
      simp only [List.append_assoc]
      rfl

/-- A failing loop step comes from the evaluator failing on some batch, with
the exception passed through unchanged. -/
theorem call_loop_some_source {ev : Args → Except Exc (List Int)} {custom : Args} :
    ∀ {batches : List Args} {acc acc2 : List Int} {e : Exc},
      call_loop ev custom batches acc = (acc2, some e) →
      ∃ b ∈ batches, ev (b ++ custom) = .error e := by
  intro batches
  induction batches with
  | nil =>
    intro acc acc2 e h
    simp [call_loop] at h
  | cons b rest ih =>
    intro acc acc2 e h
    simp only [call_loop] at h
    cases hev : ev (b ++ custom) with
    | error e2 =>
      rw [hev] at h
      simp only [Prod.mk.injEq, Option.some.injEq] at h
      exact ⟨b, List.mem_cons_self _ _, by rw [hev, h.2]⟩
    | ok r =>
      rw [hev] at h
      obtain ⟨b2, hb2, he2⟩ := ih h
      exact ⟨b2, List.mem_cons_of_mem _ hb2, he2⟩

/-! ### Behaviour of the Batch Generator -/

/-- On success, `generate_batches` yields exactly one merged mapping per
batch index, built from a successful partition at `n = len(data['x_batch'])`. -/
theorem generate_batches_ok_spec {data : Args} {bs : Nat} {xv : Val} {batches : List Args}
    (hx : List.lookup "x_batch" data = some xv)
    (hgen : generate_batches data bs = .ok batches) :
    ∃ single batched, partitionArgs xv.len data = .ok (single, batched)
      ∧ batches = (List.range (get_number_of_batches xv.len bs)).map
          (fun i => make_batch batched single (batch_start bs i) (batch_end bs i xv.len)) := by
  unfold generate_batches at hgen
  rw [hx] at hgen
  dsimp only at hgen
  cases hp : partitionArgs xv.len data with
  | error e => rw [hp] at hgen; cases hgen
  | ok p =>
    obtain ⟨single, batched⟩ := p
    rw [hp] at hgen
    simp only [Except.ok.injEq] at hgen
    exact ⟨single, batched, rfl, hgen.symm⟩

/-- The `x_batch` entry of each yielded batch is the corresponding slice of
the original array, and the slices concatenate back to the original array. -/
theorem generate_batches_x_spec {data : Args} {bs : Nat} {xs : List Int} {batches : List Args}
    (hbs : 0 < bs)
    (hnd : (data.map Prod.fst).Nodup)
    (hx : List.lookup "x_batch" data = some (.arr xs))
    (hgen : generate_batches data bs = .ok batches) :
    batches.length = get_number_of_batches xs.length bs
    ∧ (∀ i (h : i < batches.length),
        List.lookup "x_batch" (batches.get ⟨i, h⟩)
          = some (.arr ((xs.drop (bs * i)).take (batch_end bs i xs.length - batch_start bs i))))
    ∧ (batches.map xSlice).flatten = xs := by
  obtain ⟨single, batched, hp, hb⟩ := generate_batches_ok_spec hx hgen
  have hxlen : (Val.arr xs).len = xs.length := rfl
  rw [hxlen] at hp hb
  obtain ⟨hsingle, hbatched, hlen⟩ := partitionArgs_ok_spec hp
  have hxmem : ("x_batch", Val.arr xs) ∈ data := mem_of_lookup_eq_some hx
  have hxbatched : ("x_batch", Val.arr xs) ∈ batched := by
    rw [hbatched]
    exact List.mem_filter.mpr ⟨hxmem, by simp [Val.isPySequence, Val.isStr]⟩
  have hndb : (batched.map Prod.fst).Nodup := by
    apply List.Nodup.sublist _ hnd
    apply List.Sublist.map
    rw [hbatched]
    exact List.filter_sublist data
  have hlookb : List.lookup "x_batch" batched = some (Val.arr xs) :=
    lookup_eq_some_of_mem_nodup hndb hxbatched
  have hlookbatch : ∀ s e : Nat,
      List.lookup "x_batch" (make_batch batched single s e)
        = some (.arr ((xs.drop s).take (e - s))) := by
    intro s e
    unfold make_batch
    apply lookup_append_left
    rw [lookup_map_value (fun v => v.pySlice s e), hlookb]
    rfl
  have hxslice : ∀ s e : Nat,
      xSlice (make_batch batched single s e) = (xs.drop s).take (e - s) := by
    intro s e
    unfold xSlice
    rw [hlookbatch]
  have hblen : batches.length = get_number_of_batches xs.length bs := by
    rw [hb, List.length_map, List.length_range]
  refine ⟨hblen, ?_, ?_⟩
  · intro i h
    have hget : batches.get ⟨i, h⟩
        = make_batch batched single (batch_start bs i) (batch_end bs i xs.length) := by
      simp only [hb, List.get_eq_getElem, List.getElem_map, List.getElem_range]
    rw [hget, hlookbatch]
    rfl
  · rw [hb, List.map_map]
    have hcongr : (List.range (get_number_of_batches xs.length bs)).map
          (xSlice ∘ fun i => make_batch batched single (batch_start bs i) (batch_end bs i xs.length))
        = (List.range (get_number_of_batches xs.length bs)).map
          (fun i => (xs.drop (bs * i)).take bs) := by
      apply List.map_congr_left
      intro i _
      simp only [Function.comp]
      rw [hxslice]
      exact slice_take_eq xs
    rw [hcongr]
    exact flatten_chunks _ xs (le_mul_batches hbs)

/-! ### Behaviour of the Evaluation Driver -/

/-- A fully successful `__call__`: the returned value is the concatenation of
the per-batch outputs in batch order, which is also stored in
`last_results` and appended to `all_results` as one new entry. -/
theorem metric_call_ok_spec (data : Args) (bs : Nat) (batches : List Args)
    (ev : Args → Except Exc (List Int)) (post : Args → Except Exc Unit)
    (outs : Args → List Int) (st : MetricState)
    (hgen : generate_batches data bs = .ok batches)
    (hev : ∀ b ∈ batches, ev (b ++ st.custom_evaluate_kwargs) = .ok (outs b))
    (hpost : post data = .ok ()) :
    metric_call (.ok data) ev post bs st
      = ({ custom_evaluate_kwargs := st.custom_evaluate_kwargs,
           last_results := (batches.map outs).flatten,
           all_results := st.all_results ++ [(batches.map outs).flatten] },
         .ok ((batches.map outs).flatten)) := by
  simp only [metric_call]
  rw [hgen]
  dsimp only
  rw [call_loop_ok hev []]
  dsimp only
  rw [hpost]
  simp

/-- A `__call__` whose batch generation raises (a `KeyError` or the
partitioner's `ValueError`): the exception propagates after `last_results`
has been reset, with `all_results` untouched. -/
theorem metric_call_gen_error {data : Args} {bs : Nat}
    {ev : Args → Except Exc (List Int)} {post : Args → Except Exc Unit}
    {st : MetricState} {e : Exc}
    (hgen : generate_batches data bs = .error e) :
    metric_call (.ok data) ev post bs st
      = ({ custom_evaluate_kwargs := st.custom_evaluate_kwargs,
           last_results := [], all_results := st.all_results },
         .error e) := by
  simp only [metric_call]
  rw [hgen]

/-- A `__call__` whose evaluation loop raises: the exception propagates with
the partially accumulated results in `last_results` and `all_results`
untouched. -/
theorem metric_call_loop_error {data : Args} {bs : Nat} {batches : List Args}
    {ev : Args → Except Exc (List Int)} {post : Args → Except Exc Unit}
    {st : MetricState} {acc : List Int} {e : Exc}
    (hgen : generate_batches data bs = .ok batches)
    (hloop : call_loop ev st.custom_evaluate_kwargs batches [] = (acc, some e)) :
    metric_call (.ok data) ev post bs st
      = ({ custom_evaluate_kwargs := st.custom_evaluate_kwargs,
           last_results := acc, all_results := st.all_results },
         .error e) := by
  simp only [metric_call]
  rw [hgen]
  dsimp only
  rw [hloop]

/-- A `__call__` whose postprocessing hook raises: the exception propagates
with the full results in `last_results` but nothing appended to
`all_results`. -/
theorem metric_call_post_error {data : Args} {bs : Nat} {batches : List Args}
    {ev : Args → Except Exc (List Int)} {post : Args → Except Exc Unit}
    {st : MetricState} {acc : List Int} {e : Exc}
    (hgen : generate_batches data bs = .ok batches)
    (hloop : call_loop ev st.custom_evaluate_kwargs batches [] = (acc, none))
    (hpost : post data = .error e) :
    metric_call (.ok data) ev post bs st
      = ({ custom_evaluate_kwargs := st.custom_evaluate_kwargs,
           last_results := acc, all_results := st.all_results },
         .error e) := by
  simp only [metric_call]
  rw [hgen]
  dsimp only
  rw [hloop]
  dsimp only
  rw [hpost]

/-- A fully successful `__call__` in terms of the loop's accumulated value:
the result is returned, stored in `last_results`, and appended to
`all_results`. -/
theorem metric_call_all_ok {data : Args} {bs : Nat} {batches : List Args}
    {ev : Args → Except Exc (List Int)} {post : Args → Except Exc Unit}
    {st : MetricState} {acc : List Int} {u : Unit}
    (hgen : generate_batches data bs = .ok batches)
    (hloop : call_loop ev st.custom_evaluate_kwargs batches [] = (acc, none))
    (hpost : post data = .ok u) :
    metric_call (.ok data) ev post bs st
      = ({ custom_evaluate_kwargs := st.custom_evaluate_kwargs,
           last_results := acc, all_results := st.all_results ++ [acc] },
         .ok acc) := by
  simp only [metric_call]
  rw [hgen]
  dsimp only
  rw [hloop]
  dsimp only
  rw [hpost]

/-- Any failing `__call__` leaves `all_results` exactly as it was, and the
propagated exception is exactly one raised by the preprocessing hook, batch
generation, the per-batch evaluator, or the postprocessing hook. -/
theorem metric_call_error_spec {pre : Except Exc Args}
    {ev : Args → Except Exc (List Int)} {post : Args → Except Exc Unit}
    {bs : Nat} {st : MetricState} {e : Exc}
    (herr : (metric_call pre ev post bs st).2 = .error e) :
    (metric_call pre ev post bs st).1.all_results = st.all_results
    ∧ (pre = .error e
       ∨ (∃ data, pre = .ok data ∧ generate_batches data bs = .error e)
       ∨ (∃ data batches, pre = .ok data ∧ generate_batches data bs = .ok batches
            ∧ ∃ b ∈ batches, ev (b ++ st.custom_evaluate_kwargs) = .error e)
       ∨ (∃ data, pre = .ok data ∧ post data = .error e)) := by
  cases pre with
  | error e2 =>
    refine ⟨rfl, Or.inl ?_⟩
    have h2 : Except.error (α := List Int) e2 = .error e := herr
    rw [show e2 = e from Except.error.inj h2]
  | ok data =>
    cases hgen : generate_batches data bs with
    | error e2 =>
      rw [metric_call_gen_error hgen] at herr ⊢
      have h2 : e2 = e := Except.error.inj herr
      exact ⟨rfl, Or.inr (Or.inl ⟨data, rfl, by rw [hgen, h2]⟩)⟩
    | ok batches =>
      cases hloop : call_loop ev st.custom_evaluate_kwargs batches [] with
      | mk acc oe =>
        cases oe with
        | some e2 =>
          rw [metric_call_loop_error hgen hloop] at herr ⊢
          have h2 : e2 = e := Except.error.inj herr
          have hsrc := call_loop_some_source hloop
          rw [h2] at hsrc
          exact ⟨rfl, Or.inr (Or.inr (Or.inl ⟨data, batches, rfl, hgen, hsrc⟩))⟩
        | none =>
          cases hpost : post data with
          | error e2 =>
            rw [metric_call_post_error hgen hloop hpost] at herr ⊢
            have h2 : e2 = e := Except.error.inj herr
            exact ⟨rfl, Or.inr (Or.inr (Or.inr ⟨data, rfl, by rw [hpost, h2]⟩))⟩
          | ok u =>
            rw [metric_call_all_ok hgen hloop hpost] at herr
            cases herr

/-- Two entries of an association list with distinct keys that share a key
carry the same value. -/
theorem mem_unique_of_nodup_keys {l : Args} (hnd : (l.map Prod.fst).Nodup)
    {k : String} {v w : Val} (hv : (k, v) ∈ l) (hw : (k, w) ∈ l) : v = w := by
  induction l with
  | nil => cases hv
  | cons hd tl ih =>
    simp only [List.map_cons, List.nodup_cons] at hnd
    rcases List.mem_cons.mp hv with hv | hv <;> rcases List.mem_cons.mp hw with hw | hw
    · exact congrArg Prod.snd (hv.trans hw.symm)
    · exfalso
      apply hnd.1
      rw [← show (k, v).1 = hd.1 from congrArg Prod.fst hv]
      exact List.mem_map.mpr ⟨(k, w), hw, rfl⟩
    · exfalso
      apply hnd.1
      rw [← show (k, w).1 = hd.1 from congrArg Prod.fst hw]
      exact List.mem_map.mpr ⟨(k, v), hv, rfl⟩
    · exact ih hnd.2 hv hw

/-- No call of `metric_call` changes the constructor-resolved evaluator
kwargs: their resolution happens once per instance, at construction. -/
theorem metric_call_preserves_custom (pre : Except Exc Args)
    (ev : Args → Except Exc (List Int)) (post : Args → Except Exc Unit)
    (bs : Nat) (st : MetricState) :
    (metric_call pre ev post bs st).1.custom_evaluate_kwargs
      = st.custom_evaluate_kwargs := by
  cases pre with
  | error e => rfl
  | ok data =>
    cases hgen : generate_batches data bs with
    | error e => rw [metric_call_gen_error hgen]
    | ok batches =>
      cases hloop : call_loop ev st.custom_evaluate_kwargs batches [] with
      | mk acc oe =>
        cases oe with
        | some e => rw [metric_call_loop_error hgen hloop]
        | none =>
          cases hpost : post data with
          | error e => rw [metric_call_post_error hgen hloop hpost]
          | ok u => rw [metric_call_all_ok hgen hloop hpost]

/-- The kwarg-resolution loop of the constructor moves exactly the matching
keys, preserving order on both sides. -/
theorem init_custom_kwargs_spec (names : List String) (kwargs : Args) :
    (init_custom_kwargs names kwargs).1
        = kwargs.filter (fun kv => names.contains kv.1 || names.contains (strip_batch kv.1))
    ∧ (init_custom_kwargs names kwargs).2
        = kwargs.filter
            (fun kv => !(names.contains kv.1 || names.contains (strip_batch kv.1))) := by
  induction kwargs with
  | nil => exact ⟨rfl, rfl⟩
  | cons hd tl ih =>
    rw [show hd = (hd.1, hd.2) from rfl]
    simp only [init_custom_kwargs]
    by_cases hc : (names.contains hd.1 || names.contains (strip_batch hd.1)) = true
    · rw [if_pos hc]
      refine ⟨?_, ?_⟩
      · rw [List.filter_cons, if_pos hc]
        simp [ih.1]
      · rw [List.filter_cons, if_neg (by rw [hc]; decide)]
        simp [ih.2]
    · rw [if_neg hc]
      have hc' : (names.contains hd.1 || names.contains (strip_batch hd.1)) = false :=
        Bool.of_not_eq_true hc
      refine ⟨?_, ?_⟩
      · rw [List.filter_cons, if_neg (by rw [hc']; decide)]
        simp [ih.1]
      · rw [List.filter_cons, if_pos (by rw [hc']; decide)]
        simp [ih.2]

/-! ## The claims -/

/-- C1: for every `n_instances ≥ 0` and `batch_size > 0`, the Batch Planner
returns `batch_count = ceil(n_instances / batch_size)`; the per-index ranges
`[batch_start, batch_end)` are contiguous and non-overlapping, every range's
end is bounded by `n_instances`, the range lengths sum to `n_instances`, and
every position below `n_instances` lies in some range — so the ranges
partition `[0, n_instances)` exactly. -/
theorem batch_planner_ranges_partition (n bs : Nat) (hbs : 0 < bs) :
    ((get_number_of_batches n bs : ℤ) = ⌈(n : ℚ) / (bs : ℚ)⌉)
    ∧ (∀ i, i + 1 < get_number_of_batches n bs →
        batch_end bs i n = batch_start bs (i + 1))
    ∧ (∀ i j2, i < j2 → j2 < get_number_of_batches n bs →
        batch_end bs i n ≤ batch_start bs j2)
    ∧ (∀ i, batch_end bs i n ≤ n)
    ∧ (((List.range (get_number_of_batches n bs)).map
          (fun i => batch_end bs i n - batch_start bs i)).sum = n)
    ∧ (∀ p, p < n → ∃ i, i < get_number_of_batches n bs
        ∧ batch_start bs i ≤ p ∧ p < batch_end bs i n) := by
  have hA := le_mul_batches (n := n) hbs
  have hB := mul_batches_lt (n := n) hbs
  refine ⟨?_, ?_, ?_, ?_, ?_, ?_⟩
  · have hbsQ : (0 : ℚ) < (bs : ℚ) := by exact_mod_cast hbs
    symm
    rw [Int.ceil_eq_iff]
    constructor
    · rw [lt_div_iff₀ hbsQ]
      have hBQ : (bs : ℚ) * (get_number_of_batches n bs : ℚ) < (n : ℚ) + (bs : ℚ) := by
        exact_mod_cast hB
      push_cast
      nlinarith [hBQ]
    · rw [div_le_iff₀ hbsQ]
      have hAQ : (n : ℚ) ≤ (bs : ℚ) * (get_number_of_batches n bs : ℚ) := by
        exact_mod_cast hA
      push_cast
      nlinarith [hAQ]
  · intro i hi
    have hlt : bs * (i + 1) < n := batch_start_le_of_lt hbs hi
    unfold batch_end batch_start
    rw [min_eq_left (le_of_lt hlt)]
  · intro i j2 hij hj
    unfold batch_end batch_start
    exact le_trans (min_le_left _ _) (Nat.mul_le_mul_left bs hij)
  · intro i
    exact min_le_right _ _
  · have hmapeq : (List.range (get_number_of_batches n bs)).map
          (fun i => batch_end bs i n - batch_start bs i)
        = (List.range (get_number_of_batches n bs)).map
          (fun i => min (bs * (i + 1)) n - min (bs * i) n) := by
      apply List.map_congr_left
      intro i hi
      have hlt : bs * i < n := batch_start_le_of_lt hbs (List.mem_range.mp hi)
      unfold batch_end batch_start
      rw [min_eq_left (le_of_lt hlt)]
    rw [hmapeq, sum_range_min_sub, min_eq_right hA]
    simp
  · intro p hp
    refine ⟨p / bs, ?_, ?_, ?_⟩
    · have h1 : p + bs ≤ n + bs - 1 := by omega
      have h2 := Nat.div_le_div_right (c := bs) h1
      rw [Nat.add_div_right _ hbs] at h2
      exact h2
    · show bs * (p / bs) ≤ p
      calc bs * (p / bs) = p / bs * bs := Nat.mul_comm _ _
        _ ≤ p := Nat.div_mul_le_self p bs
    · show p < min (bs * (p / bs + 1)) n
      refine lt_min ?_ hp
      have hdm := Nat.div_add_mod p bs
      have hm : p % bs < bs := Nat.mod_lt _ hbs
      have hms : bs * (p / bs + 1) = bs * (p / bs) + bs := Nat.mul_succ _ _
      omega

/-- Witness for C1 at `n_instances = 10`, `batch_size = 3`. -/
theorem batch_planner_ranges_partition_witness :
    ((get_number_of_batches 10 3 : ℤ) = ⌈(10 : ℚ) / (3 : ℚ)⌉)
    ∧ (∀ i, i + 1 < get_number_of_batches 10 3 →
        batch_end 3 i 10 = batch_start 3 (i + 1))
    ∧ (∀ i j2, i < j2 → j2 < get_number_of_batches 10 3 →
        batch_end 3 i 10 ≤ batch_start 3 j2)
    ∧ (∀ i, batch_end 3 i 10 ≤ 10)
    ∧ (((List.range (get_number_of_batches 10 3)).map
          (fun i => batch_end 3 i 10 - batch_start 3 i)).sum = 10)
    ∧ (∀ p, p < 10 → ∃ i, i < get_number_of_batches 10 3
        ∧ batch_start 3 i ≤ p ∧ p < batch_end 3 i 10) :=
  batch_planner_ranges_partition 10 3 (by decide)

/-- C9: with zero instances the Batch Planner returns batch count 0 and the
Batch Generator yields no batches at all. -/
theorem zero_instances_yield_no_batches (bs : Nat) (hbs : 0 < bs) (data : Args)
    (hx : List.lookup "x_batch" data = some (Val.arr ([] : List Int)))
    (batches : List Args) (hgen : generate_batches data bs = .ok batches) :
    get_number_of_batches 0 bs = 0 ∧ batches = [] := by
  have hc : get_number_of_batches 0 bs = 0 := by
    unfold get_number_of_batches
    exact Nat.div_eq_of_lt (by omega)
  refine ⟨hc, ?_⟩
  obtain ⟨single, batched, hp, hb⟩ := generate_batches_ok_spec hx hgen
  rw [hb]
  rw [show (Val.arr ([] : List Int)).len = 0 from rfl, hc]
  rfl

/-- Witness for C9 with an empty input array and `batch_size = 2`. -/
theorem zero_instances_yield_no_batches_witness :
    get_number_of_batches 0 2 = 0 ∧ ([] : List Args) = [] :=
  zero_instances_yield_no_batches 2 (by decide) [("x_batch", Val.arr [])]
    (by rfl) [] (by rfl)

/-- C3: a dataset entry that is a recognized non-string sequence whose
length differs from the instance count makes batch generation fail with a
validation error carrying an offending key and both lengths (the expected
instance count and that entry's actual length); `__call__` propagates the
error unchanged to its caller, with the history untouched. -/
theorem partition_length_mismatch_raises (data : Args) (bs : Nat) (xv : Val)
    (k : String) (v : Val)
    (hx : List.lookup "x_batch" data = some xv)
    (hmem : (k, v) ∈ data) (hseq : v.isPySequence = true) (hstr : v.isStr = false)
    (hlen : v.len ≠ xv.len) :
    ∃ k2 v2, (k2, v2) ∈ data ∧ v2.isPySequence = true ∧ v2.isStr = false
      ∧ v2.len ≠ xv.len
      ∧ generate_batches data bs = .error (.valueError k2 xv.len v2.len)
      ∧ ∀ ev post st, metric_call (.ok data) ev post bs st
          = ({ custom_evaluate_kwargs := st.custom_evaluate_kwargs,
               last_results := [], all_results := st.all_results },
             .error (.valueError k2 xv.len v2.len)) := by
  obtain ⟨k2, v2, hm2, hs2, hst2, hl2, hpe⟩ :=
    partitionArgs_error_of_bad hmem hseq hstr hlen
  have hgen : generate_batches data bs = .error (.valueError k2 xv.len v2.len) := by
    unfold generate_batches
    rw [hx]
    dsimp only
    rw [hpe]
  exact ⟨k2, v2, hm2, hs2, hst2, hl2, hgen,
    fun ev post st => metric_call_gen_error hgen⟩

/-- Witness for C3: instance count 10 with a length-3 auxiliary array. -/
theorem partition_length_mismatch_raises_witness :
    ∃ k2 v2,
      (k2, v2) ∈ [("x_batch", Val.arr [0, 1, 2, 3, 4, 5, 6, 7, 8, 9]),
                  ("other", Val.arr [1, 2, 3])]
      ∧ v2.isPySequence = true ∧ v2.isStr = false
      ∧ v2.len ≠ (Val.arr [0, 1, 2, 3, 4, 5, 6, 7, 8, 9]).len
      ∧ generate_batches
          [("x_batch", Val.arr [0, 1, 2, 3, 4, 5, 6, 7, 8, 9]),
           ("other", Val.arr [1, 2, 3])] 4
        = .error (.valueError k2 (Val.arr [0, 1, 2, 3, 4, 5, 6, 7, 8, 9]).len v2.len)
      ∧ ∀ ev post st, metric_call
            (.ok [("x_batch", Val.arr [0, 1, 2, 3, 4, 5, 6, 7, 8, 9]),
                  ("other", Val.arr [1, 2, 3])]) ev post 4 st
          = ({ custom_evaluate_kwargs := st.custom_evaluate_kwargs,
               last_results := [], all_results := st.all_results },
             .error (.valueError k2 (Val.arr [0, 1, 2, 3, 4, 5, 6, 7, 8, 9]).len v2.len)) :=
  partition_length_mismatch_raises _ 4 _ "other" (Val.arr [1, 2, 3])
    (by rfl) (by decide) (by decide) (by decide) (by decide)

/-- C8 counterexample: with instance count 10, the entry `other` is a
recognized non-string sequence of length 3 ≠ 10, yet the Argument
Partitioner raises a validation error instead of classifying the entry as
single-value (no successful partition is produced at all). -/
theorem wrong_length_sequence_not_single_counterexample :
    ("other", Val.arr [1, 2, 3]) ∈
        [("x_batch", Val.arr [0, 1, 2, 3, 4, 5, 6, 7, 8, 9]), ("other", Val.arr [1, 2, 3])]
    ∧ (Val.arr [1, 2, 3]).isPySequence = true
    ∧ (Val.arr [1, 2, 3]).isStr = false
    ∧ (Val.arr [1, 2, 3]).len ≠ 10
    ∧ partitionArgs 10
        [("x_batch", Val.arr [0, 1, 2, 3, 4, 5, 6, 7, 8, 9]), ("other", Val.arr [1, 2, 3])]
      = .error (.valueError "other" 10 3) :=
  ⟨by decide, by decide, by decide, by decide, by decide⟩

/-- C8 (amended): every recognized non-string sequence entry whose length
differs from the instance count causes the Argument Partitioner to reject
the dataset with a validation error rather than classify the entry as
single-value: no successful partition is produced. -/
theorem wrong_length_sequence_rejected (n : Nat) (data : Args) (k : String) (v : Val)
    (hmem : (k, v) ∈ data) (hseq : v.isPySequence = true) (hstr : v.isStr = false)
    (hlen : v.len ≠ n) :
    (∃ k2 a2, a2 ≠ n ∧ partitionArgs n data = .error (.valueError k2 n a2))
    ∧ ∀ s b, partitionArgs n data ≠ .ok (s, b) := by
  obtain ⟨k2, v2, hm2, hs2, hst2, hl2, hpe⟩ :=
    partitionArgs_error_of_bad hmem hseq hstr hlen
  refine ⟨⟨k2, v2.len, hl2, hpe⟩, ?_⟩
  intro s b hok
  rw [hpe] at hok
  cases hok

/-- Witness for the amended C8 at instance count 5 with a length-3 entry. -/
theorem wrong_length_sequence_rejected_witness :
    (∃ k2 a2, a2 ≠ 5 ∧ partitionArgs 5 [("y_batch", Val.arr [1, 2, 3])]
        = .error (.valueError k2 5 a2))
    ∧ ∀ s b, partitionArgs 5 [("y_batch", Val.arr [1, 2, 3])] ≠ .ok (s, b) :=
  wrong_length_sequence_rejected 5 _ "y_batch" (Val.arr [1, 2, 3])
    (by decide) (by decide) (by decide) (by decide)

/-- C4: when the Argument Partitioner succeeds, each entry lands in exactly
one output — non-sequence or string entries in `single`, recognized
non-string sequence entries (whose length then equals the instance count)
in `batched` — and the two key sets are disjoint with union exactly the
dataset's key set. -/
theorem partition_success_classifies_all_keys (n : Nat) (data s b : Args)
    (hnd : (data.map Prod.fst).Nodup)
    (hok : partitionArgs n data = .ok (s, b)) :
    (∀ k v, (k, v) ∈ data →
       ((v.isPySequence = false ∨ v.isStr = true) → (k, v) ∈ s)
       ∧ (v.isPySequence = true → v.isStr = false → (k, v) ∈ b ∧ v.len = n))
    ∧ (∀ k, ¬ (k ∈ s.map Prod.fst ∧ k ∈ b.map Prod.fst))
    ∧ (∀ k, k ∈ data.map Prod.fst ↔ (k ∈ s.map Prod.fst ∨ k ∈ b.map Prod.fst)) := by
  obtain ⟨hs, hb, hlen⟩ := partitionArgs_ok_spec hok
  refine ⟨?_, ?_, ?_⟩
  · intro k v hmem
    constructor
    · intro hsing
      rw [hs]
      refine List.mem_filter.mpr ⟨hmem, ?_⟩
      rcases hsing with h1 | h1 <;> simp [h1]
    · intro hseq hstr
      refine ⟨?_, hlen (k, v) hmem (by simp [hseq, hstr])⟩
      rw [hb]
      exact List.mem_filter.mpr ⟨hmem, by simp [hseq, hstr]⟩
  · intro k hk
    obtain ⟨hks, hkb⟩ := hk
    obtain ⟨kv1, hkv1, hfst1⟩ := List.mem_map.mp hks
    obtain ⟨kv2, hkv2, hfst2⟩ := List.mem_map.mp hkb
    rw [hs] at hkv1
    rw [hb] at hkv2
    obtain ⟨hm1, hp1⟩ := List.mem_filter.mp hkv1
    obtain ⟨hm2, hp2⟩ := List.mem_filter.mp hkv2
    have h1 : (k, kv1.2) ∈ data := by rw [← hfst1]; exact hm1
    have h2 : (k, kv2.2) ∈ data := by rw [← hfst2]; exact hm2
    have hveq : kv1.2 = kv2.2 := mem_unique_of_nodup_keys hnd h1 h2
    rw [hveq] at hp1
    cases hx1 : kv2.2.isPySequence <;> cases hx2 : kv2.2.isStr <;> simp_all
  · intro k
    constructor
    · intro hk
      obtain ⟨kv, hkv, hfst⟩ := List.mem_map.mp hk
      by_cases hc : (!kv.2.isPySequence || kv.2.isStr) = true
      · left
        rw [hs]
        exact List.mem_map.mpr ⟨kv, List.mem_filter.mpr ⟨hkv, hc⟩, hfst⟩
      · right
        rw [hb]
        refine List.mem_map.mpr ⟨kv, List.mem_filter.mpr ⟨hkv, ?_⟩, hfst⟩
        cases hx1 : kv.2.isPySequence <;> cases hx2 : kv.2.isStr <;> simp_all
    · intro hk
      rcases hk with hk | hk
      · obtain ⟨kv, hkv, hfst⟩ := List.mem_map.mp hk
        rw [hs] at hkv
        exact List.mem_map.mpr ⟨kv, (List.mem_filter.mp hkv).1, hfst⟩
      · obtain ⟨kv, hkv, hfst⟩ := List.mem_map.mp hk
        rw [hb] at hkv
        exact List.mem_map.mpr ⟨kv, (List.mem_filter.mp hkv).1, hfst⟩

/-- Witness for C4 on a three-entry dataset with instance count 2. -/
theorem partition_success_classifies_all_keys_witness :
    (∀ k v, (k, v) ∈ [("x_batch", Val.arr [1, 2]), ("label", Val.str "foo"),
                      ("w", Val.scalar 5)] →
       ((v.isPySequence = false ∨ v.isStr = true) →
          (k, v) ∈ [("label", Val.str "foo"), ("w", Val.scalar 5)])
       ∧ (v.isPySequence = true → v.isStr = false →
          (k, v) ∈ [("x_batch", Val.arr [1, 2])] ∧ v.len = 2))
    ∧ (∀ k, ¬ (k ∈ ([("label", Val.str "foo"), ("w", Val.scalar 5)] : Args).map Prod.fst
          ∧ k ∈ ([("x_batch", Val.arr [1, 2])] : Args).map Prod.fst))
    ∧ (∀ k, k ∈ ([("x_batch", Val.arr [1, 2]), ("label", Val.str "foo"),
                  ("w", Val.scalar 5)] : Args).map Prod.fst
        ↔ (k ∈ ([("label", Val.str "foo"), ("w", Val.scalar 5)] : Args).map Prod.fst
           ∨ k ∈ ([("x_batch", Val.arr [1, 2])] : Args).map Prod.fst)) :=
  partition_success_classifies_all_keys 2
    [("x_batch", Val.arr [1, 2]), ("label", Val.str "foo"), ("w", Val.scalar 5)]
    [("label", Val.str "foo"), ("w", Val.scalar 5)]
    [("x_batch", Val.arr [1, 2])]
    (by decide) (by decide)

/-- C5: concatenating the `x_batch` slices of all yielded batches, in yield
order, reconstructs the original array exactly; there is one batch per
batch index, produced in strictly increasing index order, the batch at
index `i` carrying the slice `[batch_start, batch_end)` for `i` — so the
instances are covered exactly once in their original order. -/
theorem batch_generator_roundtrip (data : Args) (bs : Nat) (xs : List Int)
    (batches : List Args) (hbs : 0 < bs)
    (hnd : (data.map Prod.fst).Nodup)
    (hx : List.lookup "x_batch" data = some (Val.arr xs))
    (hgen : generate_batches data bs = .ok batches) :
    (batches.map xSlice).flatten = xs
    ∧ batches.length = get_number_of_batches xs.length bs
    ∧ ∀ i (h : i < batches.length),
        List.lookup "x_batch" (batches.get ⟨i, h⟩)
          = some (Val.arr ((xs.drop (bs * i)).take
              (batch_end bs i xs.length - batch_start bs i))) := by
  obtain ⟨hlen2, hlook, hflat⟩ := generate_batches_x_spec hbs hnd hx hgen
  exact ⟨hflat, hlen2, hlook⟩

/-- Witness for C5: five instances at `batch_size = 2`. -/
theorem batch_generator_roundtrip_witness :
    (([[("x_batch", Val.arr [1, 2])], [("x_batch", Val.arr [3, 4])],
       [("x_batch", Val.arr [5])]].map xSlice).flatten = [1, 2, 3, 4, 5])
    ∧ ([[("x_batch", Val.arr [1, 2])], [("x_batch", Val.arr [3, 4])],
        [("x_batch", Val.arr [5])]] : List Args).length
        = get_number_of_batches ([1, 2, 3, 4, 5] : List Int).length 2
    ∧ ∀ i (h : i < ([[("x_batch", Val.arr [1, 2])], [("x_batch", Val.arr [3, 4])],
        [("x_batch", Val.arr [5])]] : List Args).length),
        List.lookup "x_batch" (([[("x_batch", Val.arr [1, 2])],
            [("x_batch", Val.arr [3, 4])], [("x_batch", Val.arr [5])]] : List Args).get ⟨i, h⟩)
          = some (Val.arr ((([1, 2, 3, 4, 5] : List Int).drop (2 * i)).take
              (batch_end 2 i ([1, 2, 3, 4, 5] : List Int).length - batch_start 2 i))) :=
  batch_generator_roundtrip [("x_batch", Val.arr [1, 2, 3, 4, 5])] 2 [1, 2, 3, 4, 5]
    [[("x_batch", Val.arr [1, 2])], [("x_batch", Val.arr [3, 4])],
     [("x_batch", Val.arr [5])]]
    (by decide) (by decide) (by rfl) (by rfl)

/-- C2: on a dataset whose batches all evaluate successfully, `__call__`
returns the concatenation of the per-batch evaluator outputs in batch order
— of length `n_instances` when the evaluator returns one score per instance
of its batch — and appends that result as one new entry to the instance's
history; a second call on the same driver appends a second entry, the first
entry remaining in place unchanged. -/
theorem driver_concatenates_and_appends_history
    (data : Args) (bs : Nat) (xs : List Int) (batches : List Args)
    (ev : Args → Except Exc (List Int)) (post : Args → Except Exc Unit)
    (outs : Args → List Int) (st : MetricState)
    (hbs : 0 < bs)
    (hnd : (data.map Prod.fst).Nodup)
    (hx : List.lookup "x_batch" data = some (Val.arr xs))
    (hgen : generate_batches data bs = .ok batches)
    (hev : ∀ b ∈ batches, ev (b ++ st.custom_evaluate_kwargs) = .ok (outs b))
    (hcount : ∀ b ∈ batches, (outs b).length = (xSlice b).length)
    (hpost : post data = .ok ()) :
    metric_call (.ok data) ev post bs st
      = ({ custom_evaluate_kwargs := st.custom_evaluate_kwargs,
           last_results := (batches.map outs).flatten,
           all_results := st.all_results ++ [(batches.map outs).flatten] },
         .ok ((batches.map outs).flatten))
    ∧ ((batches.map outs).flatten).length = xs.length
    ∧ (metric_call (.ok data) ev post bs
         (metric_call (.ok data) ev post bs st).1).1.all_results
        = st.all_results
            ++ [(batches.map outs).flatten, (batches.map outs).flatten] := by
  have h1 := metric_call_ok_spec data bs batches ev post outs st hgen hev hpost
  obtain ⟨hlen2, hlook, hflat⟩ := generate_batches_x_spec hbs hnd hx hgen
  refine ⟨h1, ?_, ?_⟩
  · rw [List.length_flatten, List.map_map]
    have hcong : batches.map (List.length ∘ outs)
        = batches.map (List.length ∘ xSlice) := by
      apply List.map_congr_left
      intro b hb
      exact hcount b hb
    rw [hcong, ← List.map_map, ← List.length_flatten, hflat]
  · have hst1 : (metric_call (.ok data) ev post bs st).1
        = { custom_evaluate_kwargs := st.custom_evaluate_kwargs,
            last_results := (batches.map outs).flatten,
            all_results := st.all_results ++ [(batches.map outs).flatten] } := by
      rw [h1]
    rw [hst1]
    have h2 := metric_call_ok_spec data bs batches ev post outs
      { custom_evaluate_kwargs := st.custom_evaluate_kwargs,
        last_results := (batches.map outs).flatten,
        all_results := st.all_results ++ [(batches.map outs).flatten] }
      hgen (fun b hb => hev b hb) hpost
    rw [h2]
    simp

/-- Witness for C2: five instances, `batch_size = 2`, an evaluator returning
one `1` per instance of its batch. -/
theorem driver_concatenates_and_appends_history_witness :
    metric_call (.ok [("x_batch", Val.arr [1, 2, 3, 4, 5])])
        (fun args => .ok (List.replicate (xSlice args).length 1))
        (fun _ => .ok ()) 2
        { custom_evaluate_kwargs := [], last_results := [], all_results := [] }
      = ({ custom_evaluate_kwargs := [],
           last_results := (([[("x_batch", Val.arr [1, 2])], [("x_batch", Val.arr [3, 4])],
              [("x_batch", Val.arr [5])]].map
                (fun args => List.replicate (xSlice args).length (1 : Int)))).flatten,
           all_results := [] ++ [(([[("x_batch", Val.arr [1, 2])],
              [("x_batch", Val.arr [3, 4])], [("x_batch", Val.arr [5])]].map
                (fun args => List.replicate (xSlice args).length (1 : Int)))).flatten] },
         .ok ((([[("x_batch", Val.arr [1, 2])], [("x_batch", Val.arr [3, 4])],
              [("x_batch", Val.arr [5])]].map
                (fun args => List.replicate (xSlice args).length (1 : Int)))).flatten))
    ∧ ((([[("x_batch", Val.arr [1, 2])], [("x_batch", Val.arr [3, 4])],
          [("x_batch", Val.arr [5])]].map
            (fun args => List.replicate (xSlice args).length (1 : Int)))).flatten).length
        = ([1, 2, 3, 4, 5] : List Int).length
    ∧ (metric_call (.ok [("x_batch", Val.arr [1, 2, 3, 4, 5])])
        (fun args => .ok (List.replicate (xSlice args).length 1))
        (fun _ => .ok ()) 2
        (metric_call (.ok [("x_batch", Val.arr [1, 2, 3, 4, 5])])
          (fun args => .ok (List.replicate (xSlice args).length 1))
          (fun _ => .ok ()) 2
          { custom_evaluate_kwargs := [], last_results := [], all_results := [] }).1).1.all_results
        = [] ++ [(([[("x_batch", Val.arr [1, 2])], [("x_batch", Val.arr [3, 4])],
              [("x_batch", Val.arr [5])]].map
                (fun args => List.replicate (xSlice args).length (1 : Int)))).flatten,
            (([[("x_batch", Val.arr [1, 2])], [("x_batch", Val.arr [3, 4])],
              [("x_batch", Val.arr [5])]].map
                (fun args => List.replicate (xSlice args).length (1 : Int)))).flatten] :=
  driver_concatenates_and_appends_history
    [("x_batch", Val.arr [1, 2, 3, 4, 5])] 2 [1, 2, 3, 4, 5]
    [[("x_batch", Val.arr [1, 2])], [("x_batch", Val.arr [3, 4])],
     [("x_batch", Val.arr [5])]]
    (fun args => .ok (List.replicate (xSlice args).length 1))
    (fun _ => .ok ())
    (fun args => List.replicate (xSlice args).length 1)
    { custom_evaluate_kwargs := [], last_results := [], all_results := [] }
    (by decide) (by decide) (by rfl) (by rfl) (by decide) (by decide) (by rfl)

/-- C10: if the evaluator raises on batch index `k > 0`, the exception
propagates with `last_results` holding exactly the concatenated outputs of
the `k` completed batches (the previous call's value having been replaced
by the fresh sequence built in this call), while `all_results` is exactly
as it was before the call. -/
theorem evaluator_failure_keeps_completed_results
    (data : Args) (bs : Nat) (batches : List Args)
    (ev : Args → Except Exc (List Int)) (post : Args → Except Exc Unit)
    (outs : Nat → List Int) (st : MetricState) (k : Nat) (e : Exc)
    (hgen : generate_batches data bs = .ok batches)
    (hk : k < batches.length) (hkpos : 0 < k)
    (hsucc : ∀ i (h : i < k),
      ev (batches.get ⟨i, Nat.lt_trans h hk⟩ ++ st.custom_evaluate_kwargs) = .ok (outs i))
    (hfail : ev (batches.get ⟨k, hk⟩ ++ st.custom_evaluate_kwargs) = .error e) :
    metric_call (.ok data) ev post bs st
      = ({ custom_evaluate_kwargs := st.custom_evaluate_kwargs,
           last_results := ((List.range k).map outs).flatten,
           all_results := st.all_results },
         .error e) := by
  have hloop := call_loop_fail k outs batches hk hsucc hfail []
  simp only [List.nil_append] at hloop
  exact metric_call_loop_error hgen hloop

/-- Witness for C10: four instances, `batch_size = 2`, the evaluator
succeeding on batch 0 and failing on batch 1, starting from a driver with
one earlier history entry. -/
theorem evaluator_failure_keeps_completed_results_witness :
    metric_call (.ok [("x_batch", Val.arr [1, 2, 3, 4])])
        (fun args => if List.lookup "x_batch" args = some (Val.arr [1, 2])
          then .ok [7, 7] else .error (.hookError "boom"))
        (fun _ => .ok ()) 2
        { custom_evaluate_kwargs := [], last_results := [9], all_results := [[9]] }
      = ({ custom_evaluate_kwargs := [],
           last_results := ((List.range 1).map (fun _ => ([7, 7] : List Int))).flatten,
           all_results := [[9]] },
         .error (.hookError "boom")) :=
  evaluator_failure_keeps_completed_results
    [("x_batch", Val.arr [1, 2, 3, 4])] 2
    [[("x_batch", Val.arr [1, 2])], [("x_batch", Val.arr [3, 4])]]
    (fun args => if List.lookup "x_batch" args = some (Val.arr [1, 2])
      then .ok [7, 7] else .error (.hookError "boom"))
    (fun _ => .ok ())
    (fun _ => [7, 7])
    { custom_evaluate_kwargs := [], last_results := [9], all_results := [[9]] }
    1 (.hookError "boom")
    (by rfl) (by decide) (by decide)
    (by
      intro i h
      have hi0 : i = 0 := by omega
      subst hi0
      rfl)
    (by rfl)

/-- C7: every failure inside `__call__` — a preprocessing-hook exception, a
validation error from batch generation, a per-batch evaluator exception, or
a postprocessing-hook exception — aborts the call with exactly that
exception, returns no result sequence, adds nothing to the history, and
leaves earlier history entries untouched. -/
theorem failure_aborts_without_history_change
    (pre : Except Exc Args) (ev : Args → Except Exc (List Int))
    (post : Args → Except Exc Unit) (bs : Nat) (st : MetricState) (e : Exc)
    (herr : (metric_call pre ev post bs st).2 = .error e) :
    (metric_call pre ev post bs st).1.all_results = st.all_results
    ∧ (∀ r : List Int, (metric_call pre ev post bs st).2 ≠ .ok r)
    ∧ (pre = .error e
       ∨ (∃ data, pre = .ok data ∧ generate_batches data bs = .error e)
       ∨ (∃ data batches, pre = .ok data ∧ generate_batches data bs = .ok batches
            ∧ ∃ b ∈ batches, ev (b ++ st.custom_evaluate_kwargs) = .error e)
       ∨ (∃ data, pre = .ok data ∧ post data = .error e)) := by
  obtain ⟨h1, h2⟩ := metric_call_error_spec herr
  refine ⟨h1, ?_, h2⟩
  intro r hok
  rw [herr] at hok
  cases hok

/-- Witness for C7: a failing preprocessing hook, starting from a driver
with one earlier history entry. -/
theorem failure_aborts_without_history_change_witness :
    (metric_call (.error (.hookError "pre")) (fun _ => .ok []) (fun _ => .ok ()) 2
        { custom_evaluate_kwargs := [], last_results := [3], all_results := [[3]] }).1.all_results
      = ({ custom_evaluate_kwargs := [], last_results := [3],
           all_results := [[3]] } : MetricState).all_results
    ∧ (∀ r : List Int,
        (metric_call (.error (.hookError "pre")) (fun _ => .ok []) (fun _ => .ok ()) 2
          { custom_evaluate_kwargs := [], last_results := [3],
            all_results := [[3]] }).2 ≠ .ok r)
    ∧ ((.error (.hookError "pre") : Except Exc Args) = .error (.hookError "pre")
       ∨ (∃ data, (.error (.hookError "pre") : Except Exc Args) = .ok data
            ∧ generate_batches data 2 = .error (.hookError "pre"))
       ∨ (∃ data batches, (.error (.hookError "pre") : Except Exc Args) = .ok data
            ∧ generate_batches data 2 = .ok batches
            ∧ ∃ b ∈ batches, (fun _ => (.ok [] : Except Exc (List Int)))
                (b ++
                  ({ custom_evaluate_kwargs := [], last_results := [3],
                     all_results := [[3]] } : MetricState).custom_evaluate_kwargs)
                = .error (.hookError "pre"))
       ∨ (∃ data, (.error (.hookError "pre") : Except Exc Args) = .ok data
            ∧ (fun _ => (.ok () : Except Exc Unit)) data = .error (.hookError "pre"))) :=
  failure_aborts_without_history_change
    (.error (.hookError "pre")) (fun _ => .ok []) (fun _ => .ok ()) 2
    { custom_evaluate_kwargs := [], last_results := [3], all_results := [[3]] }
    (.hookError "pre") (by rfl)

/-- C6 counterexample: the evaluator's parameter list contains `x_batch`
and the construction kwarg is named `x_batch_batch`. Stripping the literal
suffix `_batch` yields `x_batch`, which matches a parameter, so the claim
requires the kwarg to be removed from the general configuration — but the
code substitutes away every occurrence of `_batch`, producing `x`, which
matches nothing, so the kwarg stays in the general configuration and is
not stored. -/
theorem kwarg_suffix_strip_counterexample :
    (["x_batch"].contains (strip_batch_suffix "x_batch_batch")) = true
    ∧ (["x_batch"].contains "x_batch_batch") = false
    ∧ (init_custom_kwargs ["x_batch"] [("x_batch_batch", Val.scalar 1)]).1 = []
    ∧ (init_custom_kwargs ["x_batch"] [("x_batch_batch", Val.scalar 1)]).2
        = [("x_batch_batch", Val.scalar 1)] :=
  ⟨by decide, by decide, by decide, by decide⟩

/-- C6 (amended): a construction kwarg whose name matches an evaluator
parameter name directly, or after removing every occurrence of the literal
substring `_batch` from the kwarg's name (the behaviour of
`re.sub('_batch', '', key)`, not only suffix stripping), is removed from
the general configuration and stored; the stored kwargs are passed
unchanged to the evaluator on every batch call, and no `__call__` ever
changes them — resolution happens once per driver instance. -/
theorem kwarg_resolution_strips_all_batch_occurrences
    (names : List String) (kwargs : Args) (k : String) (v : Val)
    (hmem : (k, v) ∈ kwargs)
    (hmatch : (names.contains k || names.contains (strip_batch k)) = true) :
    ((k, v) ∈ (init_custom_kwargs names kwargs).1
      ∧ ∀ w, ¬ (k, w) ∈ (init_custom_kwargs names kwargs).2)
    ∧ (∀ (ev : Args → Except Exc (List Int)) custom batches acc,
        call_loop ev custom batches acc
          = call_on_batches (fun b2 => ev (b2 ++ custom)) batches acc)
    ∧ (∀ pre ev post bs st,
        (metric_call pre ev post bs st).1.custom_evaluate_kwargs
          = st.custom_evaluate_kwargs) := by
  obtain ⟨h1, h2⟩ := init_custom_kwargs_spec names kwargs
  refine ⟨⟨?_, ?_⟩, ?_, ?_⟩
  · rw [h1]
    exact List.mem_filter.mpr ⟨hmem, hmatch⟩
  · intro w hw
    rw [h2] at hw
    have hp := (List.mem_filter.mp hw).2
    rw [show ((k, w) : String × Val).1 = k from rfl] at hp
    rw [hmatch] at hp
    cases hp
  · intro ev custom batches acc
    exact call_loop_eq_call_on_batches ev custom batches acc
  · intro pre ev post bs st
    exact metric_call_preserves_custom pre ev post bs st

/-- Witness for the amended C6: evaluator parameter `threshold`, kwargs
`threshold` (matched, moved) alongside `abs` (kept). -/
theorem kwarg_resolution_strips_all_batch_occurrences_witness :
    (("threshold", Val.scalar 1)
        ∈ (init_custom_kwargs ["threshold"]
            [("threshold", Val.scalar 1), ("abs", Val.scalar 0)]).1
      ∧ ∀ w, ¬ ("threshold", w)
        ∈ (init_custom_kwargs ["threshold"]
            [("threshold", Val.scalar 1), ("abs", Val.scalar 0)]).2)
    ∧ (∀ (ev : Args → Except Exc (List Int)) custom batches acc,
        call_loop ev custom batches acc
          = call_on_batches (fun b2 => ev (b2 ++ custom)) batches acc)
    ∧ (∀ pre ev post bs st,
        (metric_call pre ev post bs st).1.custom_evaluate_kwargs
          = st.custom_evaluate_kwargs) :=
  kwarg_resolution_strips_all_batch_occurrences
    ["threshold"] [("threshold", Val.scalar 1), ("abs", Val.scalar 0)]
    "threshold" (Val.scalar 1) (by decide) (by decide)

end Quantus

